import Mathlib

/-!
Verification development for the agentic-system-oss repository.

This file gives a shallow embedding, in Lean 4, of the core algorithms of the
three services of the repository:

* the LLM council Stage-2 aggregate ranking
  (src/mcp-servers/llm-council-mcp/backend/council.py),
* the SAFLA fallback embedding generator and the SHA-512 hash it relies on
  (src/mcp-servers/safla-mcp/server.py),
* the agent runtime: task dequeue, relay pipelines and circuit breakers
  (src/mcp-servers/agent-runtime-mcp/server.py),
* the enhanced memory engine: entity creation with importance scoring,
  working memory, version diff and skill execution recording
  (src/mcp-servers/enhanced-memory-mcp/server.py).

Modelling conventions:

* SQLite rows become Lean structures; a table becomes a list of rows; the
  implicit transaction of one tool call becomes a pure function from the
  store to a (response, new store) pair.  CURRENT_TIMESTAMP becomes an
  explicit natural-number parameter "now".
* Python float values are modelled where rounding matters (the importance
  score of create_entities) by dyadic numbers: an unreduced pair
  mantissa * 2 ^ exponent together with IEEE-754 binary64
  round-to-nearest-ties-to-even at 53 significant bits.  All values reached
  by the embedded code lie well inside the normal range of binary64, so
  neither subnormals nor overflow need to be modelled.
* Python round(x, 2) on the aggregate rank (council.py) is modelled in
  integer hundredths: the stored key is the mean multiplied by 100 and
  rounded half-to-even to an integer.
* Python strings become lists of characters where character-level work
  happens (lowercasing, substring search) and Lean strings elsewhere;
  byte strings become lists of naturals below 256.
-/

namespace AgenticOSS

/-! ## Generic list machinery

A stable insertion sort.  Python list.sort and the ORDER BY plus first-match
scans in the servers are modelled with it: an element inserted later never
moves in front of an earlier element it ties with, which is exactly the
stability guarantee of Python sorting. -/

def insortLe {α : Type} (le : α → α → Bool) (x : α) : List α → List α
  | [] => [x]
  | y :: ys => if le y x then y :: insortLe le x ys else x :: y :: ys

def stableSort {α : Type} (le : α → α → Bool) (l : List α) : List α :=
  l.foldl (fun acc x => insortLe le x acc) []

/-- matchesAt needle hay: needle occurs at the very start of hay. -/
def matchesAt : List Char → List Char → Bool
  | [], _ => true
  | _ :: _, [] => false
  | a :: as, b :: bs => a == b && matchesAt as bs

/-- hasSegment needle hay: needle occurs contiguously somewhere in hay.
Models the Python substring test (kw in text). -/
def hasSegment (needle : List Char) : List Char → Bool
  | [] => matchesAt needle []
  | b :: bs => matchesAt needle (b :: bs) || hasSegment needle bs

/-- Fuel-driven floor of log base 2; myLog2F n n equals Nat.log2 n but its
recursion is structural, so it evaluates inside the kernel. -/
def myLog2F : Nat → Nat → Nat
  | 0, _ => 0
  | fuel + 1, n => if 2 ≤ n then myLog2F fuel (n / 2) + 1 else 0

def myLog2 (n : Nat) : Nat := myLog2F n n

/-- Round a / b (with b positive) to the nearest integer, ties to even.
This is the rounding used both by Python round() and by IEEE-754
round-to-nearest. -/
def roundHalfEvenNat (a b : Nat) : Nat :=
  let q := a / b
  let r := a % b
  if 2 * r < b then q
  else if b < 2 * r then q + 1
  else if q % 2 = 0 then q else q + 1

/-- Big-endian byte serialization of n on count bytes. -/
def natToBytesBE : Nat → Nat → List Nat
  | 0, _ => []
  | count + 1, n => natToBytesBE count (n / 256) ++ [n % 256]

/-- Big-endian interpretation of a byte list. -/
def bytesToNatBE (bs : List Nat) : Nat :=
  bs.foldl (fun acc b => acc * 256 + b) 0

/-- Split a list into chunks of size sz (the final chunk may be shorter);
fuel-driven so that it evaluates inside the kernel. -/
def chunksF {α : Type} (sz : Nat) : Nat → List α → List (List α)
  | 0, _ => []
  | _, [] => []
  | fuel + 1, l => l.take sz :: chunksF sz fuel (l.drop sz)

def chunks {α : Type} (sz : Nat) (l : List α) : List (List α) :=
  chunksF sz l.length l

end AgenticOSS

namespace AgenticOSS.Council

/-!
## LLM council: Stage-2 aggregate ranking

Embeds calculate_aggregate_rankings from
src/mcp-servers/llm-council-mcp/backend/council.py (lines 93..127).

The Python inputs are a list of evaluator records (only the parsed_ranking
field of each record is read) and the insertion-ordered dict label_to_model,
here an association list in the same order, which by _create_label_mapping
is the label order Response A, Response B, ... matching Stage-1 order.

The source computes avg_rank = sum(positions) / len(positions) as a float
and stores round(avg_rank, 2) as the sort key.  Here the key is kept in
integer hundredths: averageRank100 = the mean times 100, rounded
half-to-even, which gives the same comparisons for all values reached by
the source (positions are small integers, so the float arithmetic of the
source is exact except for the final decimal rounding). -/

/-- 1-based positions at which label occurs in one parsed ranking, in order.
Mirrors enumerate(parsed, 1) with the membership guard. -/
def posList : List String → String → Nat → List Nat
  | [], _, _ => []
  | x :: xs, lab, i =>
    if x = lab then i :: posList xs lab (i + 1) else posList xs lab (i + 1)

/-- All positions collected for one label across all evaluators, in
evaluator order: rank_positions[label] in the source. -/
def positionsFor (parsedRankings : List (List String)) (lab : String) : List Nat :=
  (parsedRankings.map (fun parsed => posList parsed lab 1)).flatten

structure AggEntry where
  model : String
  label : String
  /-- The sort key round(avg_rank, 2) of the source, held in hundredths. -/
  averageRank100 : Nat
  voteCount : Nat
  positions : List Nat
  deriving DecidableEq, Repr

def aggLe (a b : AggEntry) : Bool := a.averageRank100 ≤ b.averageRank100

/-- The results list before sorting: one entry per label of label_to_model
that received at least one position, built by iterating label_to_model in
insertion order (which is the label order Response A, Response B, ...). -/
def aggregateEntriesInLabelOrder (parsedRankings : List (List String))
    (labelToModel : List (String × String)) : List AggEntry :=
  labelToModel.filterMap (fun p =>
    let ps := positionsFor parsedRankings p.1
    if ps.isEmpty then none
    else some { model := p.2, label := p.1,
                averageRank100 := roundHalfEvenNat (100 * ps.sum) ps.length,
                voteCount := ps.length, positions := ps })

/-- calculate_aggregate_rankings: the label-ordered entries sorted by the
rounded mean with a stable sort (Python list.sort). -/
def calculateAggregateRankings (parsedRankings : List (List String))
    (labelToModel : List (String × String)) : List AggEntry :=
  stableSort aggLe (aggregateEntriesInLabelOrder parsedRankings labelToModel)

end AgenticOSS.Council

namespace AgenticOSS.Council

/-- The two evaluator rankings of the worked example in the specification:
the first evaluator parsed to [B, A, C], the second to [A, B, C]. -/
def exRankings : List (List String) :=
  [["Response B", "Response A", "Response C"],
   ["Response A", "Response B", "Response C"]]

/-- A label map for three Stage-1 responders, in label order. -/
def exLabelToModel : List (String × String) :=
  [("Response A", "claude"), ("Response B", "codex"), ("Response C", "gemini")]

end AgenticOSS.Council

namespace AgenticOSS.SHA512

/-!
## SHA-512

src/mcp-servers/safla-mcp/server.py line 111 calls hashlib.sha512 on the
UTF-8 encoding of the input text.  hashlib is the Python standard library,
so the hash itself is embedded here directly from FIPS 180-4: message
padding, the 80-round compression function and the big-endian serialization
of the eight 64-bit state words.  Texts are modelled as the byte lists the
source feeds to the hash.  All word arithmetic is natural-number arithmetic
reduced modulo 2 ^ 64. -/

def w64 : Nat := 18446744073709551616

def add64 (a b : Nat) : Nat := (a + b) % w64

/-- Right rotation of a 64-bit word, written arithmetically: the low n bits
move to the top, the rest shift down. -/
def rotr64 (x n : Nat) : Nat := x / 2 ^ n + x % 2 ^ n * 2 ^ (64 - n)

def xor3 (a b c : Nat) : Nat := (a ^^^ b) ^^^ c

def bigSigma0 (x : Nat) : Nat := xor3 (rotr64 x 28) (rotr64 x 34) (rotr64 x 39)

def bigSigma1 (x : Nat) : Nat := xor3 (rotr64 x 14) (rotr64 x 18) (rotr64 x 41)

def smallSigma0 (x : Nat) : Nat := xor3 (rotr64 x 1) (rotr64 x 8) (x >>> 7)

def smallSigma1 (x : Nat) : Nat := xor3 (rotr64 x 19) (rotr64 x 61) (x >>> 6)

def chFn (e f g : Nat) : Nat := (e &&& f) ^^^ ((e ^^^ (w64 - 1)) &&& g)

def majFn (a b c : Nat) : Nat := ((a &&& b) ^^^ (a &&& c)) ^^^ (b &&& c)

/-- The eighty round constants of FIPS 180-4 section 4.2.3. -/
def K : List Nat :=
  [4794697086780616226, 8158064640168781261, 13096744586834688815,
   16840607885511220156, 4131703408338449720, 6480981068601479193,
   10538285296894168987, 12329834152419229976, 15566598209576043074,
   1334009975649890238, 2608012711638119052, 6128411473006802146,
   8268148722764581231, 9286055187155687089, 11230858885718282805,
   13951009754708518548, 16472876342353939154, 17275323862435702243,
   1135362057144423861, 2597628984639134821, 3308224258029322869,
   5365058923640841347, 6679025012923562964, 8573033837759648693,
   10970295158949994411, 12119686244451234320, 12683024718118986047,
   13788192230050041572, 14330467153632333762, 15395433587784984357,
   489312712824947311, 1452737877330783856, 2861767655752347644,
   3322285676063803686, 5560940570517711597, 5996557281743188959,
   7280758554555802590, 8532644243296465576, 9350256976987008742,
   10552545826968843579, 11727347734174303076, 12113106623233404929,
   14000437183269869457, 14369950271660146224, 15101387698204529176,
   15463397548674623760, 17586052441742319658, 1182934255886127544,
   1847814050463011016, 2177327727835720531, 2830643537854262169,
   3796741975233480872, 4115178125766777443, 5681478168544905931,
   6601373596472566643, 7507060721942968483, 8399075790359081724,
   8693463985226723168, 9568029438360202098, 10144078919501101548,
   10430055236837252648, 11840083180663258601, 13761210420658862357,
   14299343276471374635, 14566680578165727644, 15097957966210449927,
   16922976911328602910, 17689382322260857208, 500013540394364858,
   748580250866718886, 1242879168328830382, 1977374033974150939,
   2944078676154940804, 3659926193048069267, 4368137639120453308,
   4836135668995329356, 5532061633213252278, 6448918945643986474,
   6902733635092675308, 7801388544844847127]

structure HashState where
  a : Nat
  b : Nat
  c : Nat
  d : Nat
  e : Nat
  f : Nat
  g : Nat
  hh : Nat
  deriving DecidableEq, Repr

/-- The initial hash value of FIPS 180-4 section 5.3.5. -/
def initH : HashState :=
  { a := 7640891576956012808, b := 13503953896175478587,
    c := 4354685564936845355, d := 11912009170470909681,
    e := 5840696475078001361, f := 11170449401992604703,
    g := 2270897969802886507, hh := 6620516959819538809 }

def roundStep (st : HashState) (kw : Nat × Nat) : HashState :=
  let t1 := add64 (add64 (add64 (add64 st.hh (bigSigma1 st.e)) (chFn st.e st.f st.g)) kw.1) kw.2
  let t2 := add64 (bigSigma0 st.a) (majFn st.a st.b st.c)
  { a := add64 t1 t2, b := st.a, c := st.b, d := st.c,
    e := add64 st.d t1, f := st.e, g := st.f, hh := st.g }

/-- Extend a 16-word schedule to 16 + n words. -/
def extendW (ws : List Nat) : Nat → List Nat
  | 0 => ws
  | n + 1 =>
    let m := ws.length
    let next := add64 (add64 (smallSigma1 (ws.getD (m - 2) 0)) (ws.getD (m - 7) 0))
      (add64 (smallSigma0 (ws.getD (m - 15) 0)) (ws.getD (m - 16) 0))
    extendW (ws ++ [next]) n

/-- Process one 128-byte block. -/
def compress (st : HashState) (block : List Nat) : HashState :=
  let w16 := (chunks 8 block).map bytesToNatBE
  let ws := extendW w16 64
  let fin := (K.zip ws).foldl roundStep st
  { a := add64 st.a fin.a, b := add64 st.b fin.b, c := add64 st.c fin.c,
    d := add64 st.d fin.d, e := add64 st.e fin.e, f := add64 st.f fin.f,
    g := add64 st.g fin.g, hh := add64 st.hh fin.hh }

/-- FIPS 180-4 padding: a 0x80 byte, zeros to 112 mod 128, then the bit
length on 16 big-endian bytes. -/
def pad (ms : List Nat) : List Nat :=
  let L := ms.length
  let z := (128 + 112 - (L + 1) % 128) % 128
  ms ++ 128 :: (List.replicate z 0 ++ natToBytesBE 16 (8 * L))

/-- The SHA-512 digest of a byte string: always eight 64-bit words, i.e.
exactly 64 bytes. -/
def sha512 (ms : List Nat) : List Nat :=
  let st := (chunks 128 (pad ms)).foldl compress initH
  natToBytesBE 8 st.a ++ natToBytesBE 8 st.b ++ natToBytesBE 8 st.c ++
    natToBytesBE 8 st.d ++ natToBytesBE 8 st.e ++ natToBytesBE 8 st.f ++
    natToBytesBE 8 st.g ++ natToBytesBE 8 st.hh

end AgenticOSS.SHA512

namespace AgenticOSS.Safla

open AgenticOSS.SHA512

/-!
## SAFLA fallback embeddings

Embeds generate_local_embeddings from src/mcp-servers/safla-mcp/server.py
(lines 103..118) in the branch where no sentence-transformers model is
available: for each text, hash_bytes = sha512(text).digest() and the
pseudo-embedding is [float(b) / 255.0 for b in hash_bytes[:384]].  The
components are represented as exact rationals b / 255 (each such value is
not exactly representable in binary64, but the claim under test concerns
the dimension of the vector, which float rounding cannot change). -/

def generateLocalEmbeddings (texts : List (List Nat)) : List (List ℚ) :=
  texts.map (fun text => ((sha512 text).take 384).map (fun (b : Nat) => (b : ℚ) / 255))

end AgenticOSS.Safla


namespace AgenticOSS.Runtime

/-!
## Agent runtime

Embeds the task queue, the relay pipeline and the circuit breaker of
src/mcp-servers/agent-runtime-mcp/server.py.  Rows carry the columns the
embedded operations read or write; priorities are integers, timestamps are
naturals supplied by the caller as the parameter now (the source writes
CURRENT_TIMESTAMP). -/

inductive TaskStatus where
  | pending
  | in_progress
  | completed
  | failed
  | cancelled
  deriving DecidableEq, Repr

structure Task where
  id : Nat
  goal_id : Option Nat
  title : String
  status : TaskStatus
  priority : Int
  dependencies : List Nat
  created_at : Nat
  started_at : Option Nat
  completed_at : Option Nat
  deriving DecidableEq, Repr

/-- ORDER BY priority DESC, created_at ASC of get_next_task. -/
def taskLe (a b : Task) : Bool :=
  b.priority < a.priority || (a.priority == b.priority && a.created_at ≤ b.created_at)

/-- The dependency check of get_next_task: every listed dependency id must
resolve (first row with that id, as fetchone does) to a completed task. -/
def depsMet (store : List Task) (t : Task) : Bool :=
  t.dependencies.all (fun d =>
    match store.find? (fun r => r.id == d) with
    | some r => r.status == TaskStatus.completed
    | none => false)

/-- get_next_task (server.py lines 423..470): scan the pending tasks in
ORDER BY priority DESC, created_at ASC order, pick the first one whose
dependencies are all completed, mark it in_progress with started_at = now,
and return it; None when no pending task qualifies. -/
def getNextTask (store : List Task) (now : Nat) : Option Task × List Task :=
  let sorted := stableSort taskLe (store.filter (fun t => t.status == TaskStatus.pending))
  match sorted.find? (fun t => depsMet store t) with
  | some t =>
    (some t, store.map (fun r =>
      if r.id == t.id then
        { r with status := TaskStatus.in_progress, started_at := some now }
      else r))
  | none => (none, store)

/-! ### Relay pipeline -/

structure Baton where
  previous_step : Nat
  quality_score : Int
  l_score : Int
  output_entity_id : Int
  summary : Option String
  deriving DecidableEq, Repr

structure Pipeline where
  id : String
  name : String
  goal : String
  agent_types : List String
  /-- Stored relay_pipelines.status column; the INSERT of
  create_relay_pipeline leaves it at the schema default, the string
  pending. -/
  status : String
  current_step : Nat
  token_budget : Int
  tokens_used : Int
  baton_data : Option Baton
  deriving DecidableEq, Repr

structure StepRow where
  pipeline_id : String
  step_index : Nat
  agent_type : String
  status : String
  quality_score : Option Int
  l_score : Option Int
  output_entity_id : Option Int
  tokens_used : Int
  started_at : Option Nat
  completed_at : Option Nat
  deriving DecidableEq, Repr

/-- The response dict of advance_relay; fields that a branch does not emit
are none. -/
structure RelayResp where
  pipeline_id : String
  status : String
  current_step : Option Nat
  next_agent : Option String
  tokens_remaining : Option Int
  total_tokens : Option Int
  deriving DecidableEq, Repr

/-- create_relay_pipeline (server.py lines 621..668).  The short UUID is an
input here.  The INSERT names neither status nor current_step nor
tokens_used, so the row starts from the schema defaults: status pending,
current_step 0, tokens_used 0, baton_data NULL; one pending step row is
created per agent type. -/
def createRelayPipeline (pid name goal : String) (agent_types : List String)
    (token_budget : Int) : Pipeline × List StepRow :=
  ({ id := pid, name := name, goal := goal, agent_types := agent_types,
     status := "pending", current_step := 0, token_budget := token_budget,
     tokens_used := 0, baton_data := none },
   (List.range agent_types.length).zip agent_types |>.map (fun p =>
     { pipeline_id := pid, step_index := p.1, agent_type := p.2,
       status := "pending", quality_score := none, l_score := none,
       output_entity_id := none, tokens_used := 0,
       started_at := none, completed_at := none }))

/-- advance_relay (server.py lines 712..814) on an existing pipeline row.
Quality and l-score are stored as supplied (held abstract as integers; the
embedding never computes with them).  Note which columns each UPDATE sets:
in the non-final branch the pipeline UPDATE sets current_step, tokens_used
and baton_data only - the stored status column is not touched, although
the returned dict says in_progress. -/
def advanceRelay (p : Pipeline) (steps : List StepRow) (quality_score l_score : Int)
    (output_entity_id tokens_used : Int) (output_summary : Option String)
    (now : Nat) : RelayResp × Pipeline × List StepRow :=
  let cs := p.current_step
  let steps1 := steps.map (fun s =>
    if s.pipeline_id == p.id && s.step_index == cs then
      { s with status := "completed", quality_score := some quality_score,
               l_score := some l_score, output_entity_id := some output_entity_id,
               tokens_used := tokens_used, completed_at := some now }
    else s)
  let new_step := cs + 1
  let new_tokens := p.tokens_used + tokens_used
  if p.agent_types.length ≤ new_step then
    ({ pipeline_id := p.id, status := "completed", current_step := none,
       next_agent := none, tokens_remaining := none, total_tokens := some new_tokens },
     { p with status := "completed", current_step := new_step, tokens_used := new_tokens },
     steps1)
  else
    let baton : Baton :=
      { previous_step := cs, quality_score := quality_score, l_score := l_score,
        output_entity_id := output_entity_id, summary := output_summary }
    ({ pipeline_id := p.id, status := "in_progress", current_step := some new_step,
       next_agent := some (p.agent_types.getD new_step ""), 
       tokens_remaining := some (p.token_budget - new_tokens), total_tokens := none },
     { p with current_step := new_step, tokens_used := new_tokens,
              baton_data := some baton },
     steps1.map (fun s =>
       if s.pipeline_id == p.id && s.step_index == new_step then
         { s with status := "in_progress", started_at := some now }
       else s))

/-! ### Circuit breaker -/

structure Breaker where
  agent_id : String
  state : String
  failure_count : Nat
  last_failure_at : Option Nat
  last_success_at : Option Nat
  opened_at : Option Nat
  failure_threshold : Nat
  window_seconds : Nat
  cooldown_seconds : Nat
  fallback_agent : String
  deriving DecidableEq, Repr

/-- The schema defaults of the circuit_breakers table. -/
def defaultBreaker (aid : String) : Breaker :=
  { agent_id := aid, state := "closed", failure_count := 0,
    last_failure_at := none, last_success_at := none, opened_at := none,
    failure_threshold := 5, window_seconds := 60, cooldown_seconds := 300,
    fallback_agent := "generalist" }

structure BreakerResp where
  agent_id : String
  state : String
  failure_count : Nat
  deriving DecidableEq, Repr

/-- circuit_breaker_status (server.py lines 901..941): a missing row is
created with the defaults and reported closed; an existing row is reported
exactly as stored.  The function takes no clock and applies no transition:
in particular an open breaker is reported open however much time has
passed since it opened. -/
def circuitBreakerStatus (store : List Breaker) (aid : String) :
    BreakerResp × List Breaker :=
  match store.find? (fun cb => cb.agent_id == aid) with
  | none =>
    ({ agent_id := aid, state := "closed", failure_count := 0 },
     store ++ [defaultBreaker aid])
  | some cb =>
    ({ agent_id := aid, state := cb.state, failure_count := cb.failure_count }, store)

/-- circuit_breaker_record_failure (server.py lines 944..992): create the
row if missing, increment failure_count, move to open when the count
reaches the threshold, stamp last_failure_at.  opened_at is never
written. -/
def circuitBreakerRecordFailure (store : List Breaker) (aid : String) (now : Nat) :
    BreakerResp × List Breaker :=
  let store1 :=
    if (store.find? (fun cb => cb.agent_id == aid)).isSome then store
    else store ++ [defaultBreaker aid]
  match store1.find? (fun cb => cb.agent_id == aid) with
  | none => ({ agent_id := aid, state := "closed", failure_count := 0 }, store1)
  | some cb =>
    let new_count := cb.failure_count + 1
    let new_state := if cb.failure_threshold ≤ new_count then "open" else cb.state
    ({ agent_id := aid, state := new_state, failure_count := new_count },
     store1.map (fun r =>
       if r.agent_id == aid then
         { r with failure_count := new_count, state := new_state,
                  last_failure_at := some now }
       else r))

end AgenticOSS.Runtime
namespace AgenticOSS.Memory

/-!
## Enhanced memory engine

Embeds create_entities, get_working_memory, memory_diff and
record_skill_execution of src/mcp-servers/enhanced-memory-mcp/server.py.
-/

/-! ### Binary64 model

The importance score of create_entities is computed in Python floats, and
its tier thresholds sit exactly where double rounding matters, so this part
is modelled bit-exactly.  A float is a dyadic number mant * 2 ^ exp (the
pair is not kept normalized; all values reached here are positive or zero
and far from overflow and from the subnormal range).  rndDy rounds an exact
dyadic value to 53 significant bits, to nearest, ties to even - the IEEE-754
binary64 rounding Python uses - and flQ rounds an arbitrary fraction, giving
the double denoted by a decimal literal such as 0.8. -/

structure Dy where
  mant : Nat
  exp : Int
  deriving DecidableEq, Repr

/-- Round the exact value n * 2 ^ e to 53 significant bits, to nearest,
ties to even. -/
def rndDy (n : Nat) (e : Int) : Dy :=
  if n ≤ 2 ^ 53 then ⟨n, e⟩
  else
    let k := myLog2 n - 52
    let q := n / 2 ^ k
    let r := n % 2 ^ k
    let half := 2 ^ (k - 1)
    let m := if r < half then q else if half < r then q + 1
             else if q % 2 = 0 then q else q + 1
    ⟨m, e + k⟩

/-- IEEE-754 addition: add exactly, round once. -/
def dyAdd (a b : Dy) : Dy :=
  let e := min a.exp b.exp
  rndDy (a.mant * 2 ^ (a.exp - e).toNat + b.mant * 2 ^ (b.exp - e).toNat) e

/-- Is n / d at least 2 ^ c? -/
def gePow2 (n d : Nat) (c : Int) : Bool :=
  if 0 ≤ c then d * 2 ^ c.toNat ≤ n else d ≤ n * 2 ^ (-c).toNat

/-- The floor of the base-2 logarithm of n / d, for positive n and d. -/
def floorLog2Q (n d : Nat) : Int :=
  let c : Int := (myLog2 n : Int) - (myLog2 d : Int)
  if gePow2 n d c then c else c - 1

/-- The binary64 double nearest to n / d (ties to even): the value Python
gives to a decimal literal. -/
def flQ (n d : Nat) : Dy :=
  if n = 0 || d = 0 then ⟨0, 0⟩
  else
    let e := floorLog2Q n d
    let sh : Int := 52 - e
    let a := if 0 ≤ sh then n * 2 ^ sh.toNat else n
    let b := if 0 ≤ sh then d else d * 2 ^ (-sh).toNat
    let q := a / b
    let r := a % b
    let m := if 2 * r < b then q else if b < 2 * r then q + 1
             else if q % 2 = 0 then q else q + 1
    ⟨m, e - 52⟩

/-- Comparison of dyadic values (exact, as in IEEE comparisons). -/
def dyLe (a b : Dy) : Bool :=
  let e := min a.exp b.exp
  a.mant * 2 ^ (a.exp - e).toNat ≤ b.mant * 2 ^ (b.exp - e).toNat

/-- Python min on two floats: the first argument when it is not greater. -/
def pyMin (a b : Dy) : Dy := if dyLe a b then a else b

/-- The rational value of a dyadic number. -/
def dyVal (a : Dy) : ℚ := (a.mant : ℚ) * 2 ^ a.exp

/-- The doubles written 0.5, 0.2, 0.1, 0.6, 0.8 and 1.0 in create_entities. -/
def fl05 : Dy := flQ 5 10

def fl02 : Dy := flQ 2 10

def fl01 : Dy := flQ 1 10

def fl06 : Dy := flQ 6 10

def fl08 : Dy := flQ 8 10

def fl1 : Dy := flQ 1 1

/-! ### Entity creation (server.py lines 181..266) -/

inductive Tier where
  | working
  | episodic
  | semantic
  | procedural
  deriving DecidableEq, Repr

def spaceChar : Char := Char.ofNat 32

/-- An apostrophe, kept out of string literals. -/
def apos : Char := Char.ofNat 39

def heuristicKeywords : List (List Char) :=
  ["error".toList, "critical".toList, "important".toList, "bug".toList]

/-- The scored text: the Python f-string of name, a space, and the
observations joined by spaces. -/
def importanceText (name : List Char) (obs : List (List Char)) : List Char :=
  name ++ spaceChar :: List.intercalate [spaceChar] obs

/-- any(kw in text.lower() for kw in [...]): the keywords contain no space,
so searching the joined text is searching name and each observation. -/
def hasHeuristicKeyword (text : List Char) : Bool :=
  heuristicKeywords.any (fun kw => hasSegment kw (text.map Char.toLower))

/-- The importance score: 0.5, plus 0.2 on a keyword hit, plus 0.1 for more
than three observations, then min(1.0, importance) - all in binary64
arithmetic exactly as Python evaluates it. -/
def importanceOf (name : List Char) (obs : List (List Char)) : Dy :=
  let imp0 := fl05
  let imp1 := if hasHeuristicKeyword (importanceText name obs) then dyAdd imp0 fl02 else imp0
  let imp2 := if 3 < obs.length then dyAdd imp1 fl01 else imp1
  pyMin fl1 imp2

/-- tier = semantic when importance >= 0.8, episodic when >= 0.6, else
working. -/
def tierOf (imp : Dy) : Tier :=
  if dyLe fl08 imp then Tier.semantic
  else if dyLe fl06 imp then Tier.episodic
  else Tier.working

structure EntityInput where
  name : List Char
  entityType : List Char
  observations : List (List Char)
  deriving DecidableEq, Repr

structure Snapshot where
  name : List Char
  etype : List Char
  observations : List (List Char)
  deriving DecidableEq, Repr

structure VersionRow where
  version_number : Nat
  snapshot : Snapshot
  commit_message : String
  deriving DecidableEq, Repr

structure MemEntity where
  id : Nat
  name : List Char
  entity_type : List Char
  tier : Tier
  importance : Dy
  observations : List (List Char)
  versions : List VersionRow
  deriving DecidableEq, Repr

structure MemStore where
  nextId : Nat
  entities : List MemEntity
  deriving DecidableEq, Repr

structure CreatedRec where
  id : Nat
  name : List Char
  tier : Tier
  importance : Dy
  deriving DecidableEq, Repr

/-- The return dict of create_entities: the created records and the
parallel list of error messages (the counts it also reports are the
lengths of these two lists). -/
structure CreateResult where
  entities : List CreatedRec
  error_messages : List (List Char)
  deriving DecidableEq, Repr

/-- The message of the sqlite3.IntegrityError handler:
Entity '<name>' already exists. -/
def dupMsg (name : List Char) : List Char :=
  "Entity ".toList ++ apos :: (name ++ apos :: " already exists".toList)

/-- The UNIQUE constraint on entities.name: the INSERT fails exactly when a
row with that name exists (including one created earlier in the same
batch). -/
def nameTaken (st : MemStore) (n : List Char) : Bool :=
  st.entities.any (fun e => e.name == n)

/-- One iteration of the batch loop of create_entities. -/
def createOne (acc : CreateResult × MemStore) (x : EntityInput) : CreateResult × MemStore :=
  let res := acc.1
  let st := acc.2
  if nameTaken st x.name then
    ({ res with error_messages := res.error_messages ++ [dupMsg x.name] }, st)
  else
    let imp := importanceOf x.name x.observations
    let tr := tierOf imp
    let ent : MemEntity :=
      { id := st.nextId, name := x.name, entity_type := x.entityType,
        tier := tr, importance := imp, observations := x.observations,
        versions := [{ version_number := 1,
                       snapshot := { name := x.name, etype := x.entityType,
                                     observations := x.observations },
                       commit_message := "Initial creation" }] }
    ({ res with entities := res.entities ++ [{ id := st.nextId, name := x.name,
                                               tier := tr, importance := imp }] },
     { nextId := st.nextId + 1, entities := st.entities ++ [ent] })

/-- create_entities over a batch: items are processed in order; a failed
item appends its message and leaves the store unchanged; a successful item
creates the entity, its observations and version 1. -/
def createEntities (batch : List EntityInput) (st : MemStore) : CreateResult × MemStore :=
  batch.foldl createOne ({ entities := [], error_messages := [] }, st)

/-! ### Working memory (server.py lines 435..483) -/

structure WMItem where
  id : Nat
  context_key : String
  content : String
  priority : Int
  ttl_minutes : Nat
  created_at : Nat
  expires_at : Nat
  access_count : Nat
  entity_id : Option Nat
  deriving DecidableEq, Repr

/-- ORDER BY priority DESC, created_at DESC. -/
def wmLe (a b : WMItem) : Bool :=
  b.priority < a.priority || (a.priority == b.priority && b.created_at ≤ a.created_at)

/-- get_working_memory: delete expired rows, select (optionally filtered by
context_key - Python treats the empty string like None here), order, limit,
then bump access_count of each returned row; the returned dicts already
carry the bumped count. -/
def getWorkingMemory (store : List WMItem) (now : Nat) (context_key : Option String)
    (limit : Nat) : List WMItem × List WMItem :=
  let kept := store.filter (fun r => !decide (r.expires_at < now))
  let base := match context_key with
    | some k => if k = "" then kept else kept.filter (fun r => r.context_key == k)
    | none => kept
  let sel := (stableSort wmLe base).take limit
  let result := sel.map (fun r => { r with access_count := r.access_count + 1 })
  let newStore := sel.foldl (fun acc r =>
    acc.map (fun x => if x.id == r.id then { x with access_count := x.access_count + 1 }
                      else x)) kept
  (result, newStore)

/-! ### Version diff (server.py lines 935..1005) -/

inductive DiffResult where
  | error (msg : List Char)
  | ok (entity : List Char) (version1 version2 : Nat) (v1 v2 : Snapshot)
      (added_observations removed_observations : List (List Char))
  deriving DecidableEq, Repr

def notFoundMsg (name : List Char) : List Char :=
  "Entity ".toList ++ apos :: (name ++ apos :: " not found".toList)

/-- memory_diff.  Versions are read in ORDER BY version_number DESC order;
fewer than two stored versions is an error; missing version arguments
default to versions[1] and versions[0]; the snapshot scan keeps the last
match (the Python loop overwrites); a missing version is an error (the
Python truthiness test cannot fire on a non-empty snapshot dict); the two
observation diffs are list comprehensions filtering on membership. -/
def memoryDiff (st : MemStore) (entity_name : List Char)
    (version1 version2 : Option Nat) : DiffResult :=
  match st.entities.find? (fun e => e.name == entity_name) with
  | none => DiffResult.error (notFoundMsg entity_name)
  | some ent =>
    let versions := stableSort (fun a b => b.version_number ≤ a.version_number) ent.versions
    match versions with
    | v0 :: v1row :: _ =>
      let ver1 := version1.getD v1row.version_number
      let ver2 := version2.getD v0.version_number
      let v1_data := versions.foldl
        (fun acc v => if v.version_number = ver1 then some v.snapshot else acc) none
      let v2_data := versions.foldl
        (fun acc v => if v.version_number = ver2 then some v.snapshot else acc) none
      match v1_data, v2_data with
      | some s1, some s2 =>
        DiffResult.ok ent.name ver1 ver2 s1 s2
          (s2.observations.filter (fun o => !(s1.observations.contains o)))
          (s1.observations.filter (fun o => !(s2.observations.contains o)))
      | _, _ => DiffResult.error "Version not found".toList
    | _ => DiffResult.error "Not enough versions for diff".toList

/-! ### Procedural skills (server.py lines 758..807) -/

structure Skill where
  id : Nat
  skill_name : String
  skill_category : String
  execution_count : Nat
  success_rate : ℚ
  avg_execution_time_ms : Option ℚ
  deriving DecidableEq, Repr

/-- Python int() on a float: truncation toward zero.  The REAL columns are
modelled as exact rationals here; the claims settled against this function
concern the counting recurrence and the [0, 1] bound, neither of which the
double rounding of the source can move across a threshold. -/
def pyInt (q : ℚ) : Int := if 0 ≤ q then ⌊q⌋ else ⌈q⌉

def skillNotFoundMsg (name : String) : List Char :=
  "Skill ".toList ++ apos :: (name.toList ++ apos :: " not found".toList)

/-- record_skill_execution: a missing skill only returns a message; an
existing one gets execution_count + 1, a success rate rebuilt from the
truncated success count, and a running average execution time (Python
kept truthiness: a NULL or zero stored average restarts from the new
sample). -/
def recordSkillExecution (store : List Skill) (skill_name : String) (success : Bool)
    (execution_time_ms : ℚ) : List Char × List Skill :=
  match store.find? (fun s => s.skill_name == skill_name) with
  | none => (skillNotFoundMsg skill_name, store)
  | some row =>
    let new_count := row.execution_count + 1
    let success_count : Int :=
      pyInt (row.success_rate * row.execution_count) + (if success then 1 else 0)
    let new_success_rate : ℚ := (success_count : ℚ) / (new_count : ℚ)
    let new_avg : ℚ :=
      match row.avg_execution_time_ms with
      | some t => if t = 0 then execution_time_ms
                  else (t * row.execution_count + execution_time_ms) / new_count
      | none => execution_time_ms
    ("Recorded execution: ".toList ++ skill_name.toList,
     store.map (fun s =>
       if s.skill_name == skill_name then
         { s with execution_count := new_count, success_rate := new_success_rate,
                  avg_execution_time_ms := some new_avg }
       else s))

end AgenticOSS.Memory

namespace AgenticOSS.Memory

/-! ### Concrete inputs used to exercise the embedded operations -/

/-- The name of test scenario 2 of the specification: it contains the
keyword bug (case-insensitively). -/
def bugName : List Char := "Bug1".toList

/-- The five observations of test scenario 2; the first contains the
keyword critical. -/
def bugObs : List (List Char) :=
  ["critical failure".toList, "retry".toList, "replay".toList,
   "stack".toList, "repro".toList]

/-- A store holding one entity with a single stored version. -/
def exDiffStore1 : MemStore :=
  { nextId := 2,
    entities := [
      { id := 1, name := "E".toList, entity_type := "t".toList,
        tier := Tier.working, importance := fl05,
        observations := ["x".toList],
        versions := [
          { version_number := 1,
            snapshot := { name := "E".toList, etype := "t".toList,
                          observations := ["x".toList] },
            commit_message := "Initial creation" }] }] }

/-- A store holding one entity with two stored versions. -/
def exDiffStore2 : MemStore :=
  { nextId := 2,
    entities := [
      { id := 1, name := "E".toList, entity_type := "t".toList,
        tier := Tier.working, importance := fl05,
        observations := ["x".toList, "y".toList],
        versions := [
          { version_number := 1,
            snapshot := { name := "E".toList, etype := "t".toList,
                          observations := ["x".toList] },
            commit_message := "Initial creation" },
          { version_number := 2,
            snapshot := { name := "E".toList, etype := "t".toList,
                          observations := ["x".toList, "y".toList] },
            commit_message := "Added y" }] }] }

/-- Batch items for the duplicate-name scenario: two items named A and one
named B. -/
def exInputA : EntityInput :=
  { name := "A".toList, entityType := "t".toList, observations := ["x".toList] }

def exInputB : EntityInput :=
  { name := "B".toList, entityType := "t".toList, observations := ["y".toList] }

/-- The empty memory store. -/
def exEmptyStore : MemStore := { nextId := 1, entities := [] }

/-- Two working-memory rows under the same context, the older one of higher
priority, plus an expired row. -/
def exWMStore : List WMItem :=
  [{ id := 1, context_key := "c", content := "old high", priority := 9,
     ttl_minutes := 60, created_at := 0, expires_at := 100, access_count := 3,
     entity_id := none },
   { id := 2, context_key := "c", content := "new low", priority := 5,
     ttl_minutes := 60, created_at := 10, expires_at := 100, access_count := 0,
     entity_id := none },
   { id := 3, context_key := "c", content := "expired", priority := 10,
     ttl_minutes := 1, created_at := 0, expires_at := 4, access_count := 0,
     entity_id := none }]

/-- One stored skill: three executions, all successful. -/
def exSkillStore : List Skill :=
  [{ id := 1, skill_name := "deploy", skill_category := "ops",
     execution_count := 3, success_rate := 1,
     avg_execution_time_ms := none }]

end AgenticOSS.Memory

namespace AgenticOSS.Runtime

/-- Two tasks: task 1 carries priority 9 and no dependencies, task 2
priority 10 but depends on task 1, which is not completed. -/
def exTaskStore : List Task :=
  [{ id := 1, goal_id := none, title := "T1", status := TaskStatus.pending,
     priority := 9, dependencies := [], created_at := 0,
     started_at := none, completed_at := none },
   { id := 2, goal_id := none, title := "T2", status := TaskStatus.pending,
     priority := 10, dependencies := [1], created_at := 1,
     started_at := none, completed_at := none }]

/-- A breaker that tripped open at time 0 with the default 300-second
cooldown. -/
def exBreakerStore : List Breaker :=
  [{ agent_id := "X", state := "open", failure_count := 5,
     last_failure_at := some 0, last_success_at := none, opened_at := some 0,
     failure_threshold := 5, window_seconds := 60, cooldown_seconds := 300,
     fallback_agent := "generalist" }]

end AgenticOSS.Runtime

namespace AgenticOSS

/-! ## Lemmas about the stable insertion sort -/

theorem mem_insortLe {α : Type} (le : α → α → Bool) (x : α) (l : List α) (z : α) :
    z ∈ insortLe le x l ↔ z = x ∨ z ∈ l := by
  induction l with
  | nil => simp [insortLe]
  | cons y ys ih =>
    cases hle : le y x <;>
      · simp only [insortLe, hle, if_true, if_false, Bool.false_eq_true,
          List.mem_cons, ih]
        try tauto

theorem mem_stableSort_aux {α : Type} (le : α → α → Bool) (l : List α) :
    ∀ (acc : List α) (z : α),
      z ∈ l.foldl (fun acc x => insortLe le x acc) acc ↔ z ∈ acc ∨ z ∈ l := by
  induction l with
  | nil => simp
  | cons y ys ih =>
    intro acc z
    simp only [List.foldl_cons, ih, mem_insortLe, List.mem_cons]
    tauto

theorem mem_stableSort {α : Type} (le : α → α → Bool) (l : List α) (z : α) :
    z ∈ stableSort le l ↔ z ∈ l := by
  simp [stableSort, mem_stableSort_aux]

theorem pairwise_insortLe {α : Type} (le : α → α → Bool)
    (htot : ∀ a b, le a b = true ∨ le b a = true)
    (htrans : ∀ a b c, le a b = true → le b c = true → le a c = true)
    (x : α) (l : List α) (h : l.Pairwise (fun a b => le a b = true)) :
    (insortLe le x l).Pairwise (fun a b => le a b = true) := by
  induction l with
  | nil => simp [insortLe]
  | cons y ys ih =>
    rcases List.pairwise_cons.mp h with ⟨hy, hys⟩
    by_cases hle : le y x
    · simp only [insortLe, hle, if_true]
      refine List.pairwise_cons.mpr ⟨?_, ih hys⟩
      intro z hz
      rcases (mem_insortLe le x ys z).mp hz with rfl | hzys
      · exact hle
      · exact hy z hzys
    · simp only [insortLe, hle, if_false]
      have hxy : le x y = true := by
        rcases htot x y with h1 | h1
        · exact h1
        · exact absurd h1 hle
      refine List.pairwise_cons.mpr ⟨?_, h⟩
      intro z hz
      rcases List.mem_cons.mp hz with rfl | hzys
      · exact hxy
      · exact htrans x y z hxy (hy z hzys)

theorem pairwise_stableSort_aux {α : Type} (le : α → α → Bool)
    (htot : ∀ a b, le a b = true ∨ le b a = true)
    (htrans : ∀ a b c, le a b = true → le b c = true → le a c = true)
    (l : List α) :
    ∀ (acc : List α), acc.Pairwise (fun a b => le a b = true) →
      (l.foldl (fun acc x => insortLe le x acc) acc).Pairwise (fun a b => le a b = true) := by
  induction l with
  | nil => intro acc hacc; simpa using hacc
  | cons y ys ih =>
    intro acc hacc
    exact ih (insortLe le y acc) (pairwise_insortLe le htot htrans y acc hacc)

theorem pairwise_stableSort {α : Type} (le : α → α → Bool)
    (htot : ∀ a b, le a b = true ∨ le b a = true)
    (htrans : ∀ a b c, le a b = true → le b c = true → le a c = true)
    (l : List α) :
    (stableSort le l).Pairwise (fun a b => le a b = true) :=
  pairwise_stableSort_aux le htot htrans l [] (by simp)

/-- Stability of one insertion step, phrased through key classes: when the
order is given by a numeric key and the target list is sorted, inserting x
appends it after every element of its own key class and leaves every key
class it does not belong to unchanged. -/
theorem filter_insortLe_key {α : Type} (le : α → α → Bool) (kf : α → Nat)
    (hle : ∀ a b, le a b = true ↔ kf a ≤ kf b) (k : Nat) (x : α) (l : List α)
    (hl : l.Pairwise (fun a b => le a b = true)) :
    (insortLe le x l).filter (fun y => kf y == k) =
      if kf x == k then l.filter (fun y => kf y == k) ++ [x]
      else l.filter (fun y => kf y == k) := by
  induction l with
  | nil => by_cases hxk : kf x == k <;> simp [insortLe, hxk]
  | cons y ys ih =>
    rcases List.pairwise_cons.mp hl with ⟨hy, hys⟩
    by_cases hyx : le y x
    · simp only [insortLe, hyx, if_true]
      by_cases hyk : kf y == k <;> by_cases hxk : kf x == k <;>
        simp [List.filter_cons, hyk, hxk, ih hys]
    · simp only [insortLe, hyx, if_false, Bool.false_eq_true]
      have hxy : kf x < kf y := by
        have h1 : ¬ kf y ≤ kf x := fun hc => hyx ((hle y x).mpr hc)
        omega
      by_cases hxk : kf x == k
      · have hk : kf x = k := by simpa using hxk
        have hnil : (y :: ys).filter (fun z => kf z == k) = [] := by
          rw [List.filter_eq_nil_iff]
          intro z hz
          rcases List.mem_cons.mp hz with rfl | hzys
          · simp only [beq_iff_eq]
            omega
          · have hyz : kf y ≤ kf z := (hle y z).mp (hy z hzys)
            simp only [beq_iff_eq]
            omega
        simp [List.filter_cons, hxk, hnil]
      · simp [List.filter_cons, hxk]

/-- Stability of the whole sort: for every key value k, the subsequence of
elements with key k in the sorted output is exactly their subsequence in
the input - a stable sort never reorders elements that compare equal. -/
theorem filter_stableSort_key {α : Type} (le : α → α → Bool) (kf : α → Nat)
    (hle : ∀ a b, le a b = true ↔ kf a ≤ kf b) (k : Nat) (l : List α) :
    (stableSort le l).filter (fun y => kf y == k) = l.filter (fun y => kf y == k) := by
  have htot : ∀ a b, le a b = true ∨ le b a = true := by
    intro a b
    rcases Nat.le_total (kf a) (kf b) with h | h
    · exact Or.inl ((hle a b).mpr h)
    · exact Or.inr ((hle b a).mpr h)
  have htrans : ∀ a b c, le a b = true → le b c = true → le a c = true := by
    intro a b c hab hbc
    exact (hle a c).mpr (Nat.le_trans ((hle a b).mp hab) ((hle b c).mp hbc))
  have haux : ∀ (l2 : List α) (acc : List α), acc.Pairwise (fun a b => le a b = true) →
      (l2.foldl (fun acc x => insortLe le x acc) acc).filter (fun y => kf y == k) =
        acc.filter (fun y => kf y == k) ++ l2.filter (fun y => kf y == k) := by
    intro l2
    induction l2 with
    | nil => intro acc _; simp
    | cons x xs ih =>
      intro acc hacc
      rw [List.foldl_cons, ih _ (pairwise_insortLe le htot htrans x acc hacc),
        filter_insortLe_key le kf hle k x acc hacc]
      by_cases hxk : kf x == k <;> simp [hxk, List.filter_cons]
  simpa using haux l [] (by simp)

theorem length_insortLe {α : Type} (le : α → α → Bool) (x : α) (l : List α) :
    (insortLe le x l).length = l.length + 1 := by
  induction l with
  | nil => simp [insortLe]
  | cons y ys ih =>
    by_cases h : le y x
    · simp [insortLe, h, ih]
    · simp [insortLe, h]

theorem length_stableSort_aux {α : Type} (le : α → α → Bool) (l : List α) :
    ∀ (acc : List α),
      (l.foldl (fun acc x => insortLe le x acc) acc).length = acc.length + l.length := by
  induction l with
  | nil => simp
  | cons y ys ih =>
    intro acc
    simp only [List.foldl_cons, ih, length_insortLe, List.length_cons]
    omega

theorem length_stableSort {α : Type} (le : α → α → Bool) (l : List α) :
    (stableSort le l).length = l.length := by
  simp [stableSort, length_stableSort_aux]

/-- In a list sorted for le, the first element satisfying p is le-below
every element satisfying p. -/
theorem find?_min_of_pairwise {α : Type} (le : α → α → Bool)
    (htot : ∀ a b, le a b = true ∨ le b a = true)
    (p : α → Bool) (l : List α) (t : α)
    (hp : l.Pairwise (fun a b => le a b = true)) (ht : l.find? p = some t) :
    ∀ u ∈ l, p u = true → le t u = true := by
  induction l with
  | nil => simp at ht
  | cons y ys ih =>
    rcases List.pairwise_cons.mp hp with ⟨hy, hys⟩
    by_cases hpy : p y
    · rw [List.find?_cons_of_pos _ hpy] at ht
      cases ht
      intro u hu hpu
      rcases List.mem_cons.mp hu with rfl | huys
      · rcases htot u u with h1 | h1 <;> exact h1
      · exact hy u huys
    · rw [List.find?_cons_of_neg _ hpy] at ht
      intro u hu hpu
      rcases List.mem_cons.mp hu with rfl | huys
      · exact absurd hpu hpy
      · exact ih hys ht u huys hpu

/-- Mapping an update that preserves the search predicate commutes with
find?: the first hit is the updated first hit.  Models an SQL UPDATE
keyed by the very column a later SELECT keys on. -/
theorem find?_map_update {α : Type} (q : α → Bool) (f : α → α)
    (hf : ∀ x, q x = true → q (f x) = true) (l : List α) :
    ((l.map (fun x => if q x then f x else x)).find? q) = (l.find? q).map f := by
  induction l with
  | nil => rfl
  | cons y ys ih =>
    by_cases hq : q y
    · simp only [List.map_cons, hq, if_true]
      rw [List.find?_cons_of_pos _ (hf y hq), List.find?_cons_of_pos _ hq]
      rfl
    · simp only [List.map_cons, hq, if_false]
      rw [List.find?_cons_of_neg _ (by simpa using hq), List.find?_cons_of_neg _ hq]
      exact ih

end AgenticOSS

namespace AgenticOSS

/-! ## Digest length of SHA-512 -/

theorem length_natToBytesBE (count : Nat) : ∀ n, (natToBytesBE count n).length = count := by
  induction count with
  | zero => intro n; rfl
  | succ c ih =>
    intro n
    simp [natToBytesBE, ih]

/-- Every SHA-512 digest is 64 bytes: the serialization of eight 64-bit
words, whatever the message. -/
theorem sha512_length (ms : List Nat) : (SHA512.sha512 ms).length = 64 := by
  simp [SHA512.sha512, length_natToBytesBE]

/-- C2: the claim states that with no embedding model, generate_embeddings
returns one 384-dimensional vector per text, built from the first 384 bytes
of the SHA-512 digest.  A SHA-512 digest has only 64 bytes, so
hash_bytes[:384] is the whole 64-byte digest and every fallback embedding
has dimension 64, never 384.  The inline comment of the source itself says
"Generate 384-dim pseudo-embedding from hash", which the code contradicts. -/
theorem generateLocalEmbeddings_dim (texts : List (List Nat)) :
    ∀ v ∈ Safla.generateLocalEmbeddings texts, v.length = 64 ∧ v.length ≠ 384 := by
  intro v hv
  simp only [Safla.generateLocalEmbeddings, List.mem_map] at hv
  obtain ⟨t, _, rfl⟩ := hv
  have h1 : ∀ l : List Nat, l.length = 64 →
      (((l.take 384)).map (fun (b : Nat) => (b : ℚ) / 255)).length = 64 := by
    intro l hl
    rw [List.length_map, List.length_take, hl]
    decide
  have h2 := h1 (SHA512.sha512 t) (sha512_length t)
  exact ⟨h2, by rw [h2]; decide⟩

/-- Witness for C2 at the empty text. -/
theorem generateLocalEmbeddings_dim_witness :
    ((Safla.generateLocalEmbeddings [[]]).headD []).length = 64 ∧
    ((Safla.generateLocalEmbeddings [[]]).headD []).length ≠ 384 :=
  generateLocalEmbeddings_dim [[]] _ (by simp [Safla.generateLocalEmbeddings])

/-! ## Aggregate ranking: claim C1 -/

/-- C1 counterexample: on the worked example of the claim - evaluators
parsed to [B, A, C] and [A, B, C] - calculate_aggregate_rankings returns
the labels in the order [A, B, C], not the claimed [B, A, C]: Python
list.sort is stable and the tied entries were built in label_to_model
insertion order (label order), not in evaluator first-appearance order. -/
theorem aggregateRankings_example_label_order :
    (Council.calculateAggregateRankings Council.exRankings Council.exLabelToModel).map
      Council.AggEntry.label = ["Response A", "Response B", "Response C"] ∧
    (Council.calculateAggregateRankings Council.exRankings Council.exLabelToModel).map
      Council.AggEntry.label ≠ ["Response B", "Response A", "Response C"] :=
  ⟨by decide, by decide⟩

/-- C1 amended: each returned entry carries the positions its label
collected across all evaluators, its vote count, and the mean of those
positions rounded to two decimals (held in hundredths); the output is
sorted by that rounded mean ascending; and for every value of the rounded
mean, the output lists the entries carrying it exactly in label_to_model
insertion order - label order - which is the stable-sort tie-break, so the
worked example aggregates to [A, B, C]. -/
theorem calculateAggregateRankings_spec (parsedRankings : List (List String))
    (labelToModel : List (String × String)) :
    (Council.calculateAggregateRankings parsedRankings labelToModel).Pairwise
      (fun a b => a.averageRank100 ≤ b.averageRank100)
    ∧ (∀ k : Nat,
        (Council.calculateAggregateRankings parsedRankings labelToModel).filter
          (fun e => e.averageRank100 == k) =
        (Council.aggregateEntriesInLabelOrder parsedRankings labelToModel).filter
          (fun e => e.averageRank100 == k))
    ∧ (∀ e ∈ Council.calculateAggregateRankings parsedRankings labelToModel,
        e.positions = Council.positionsFor parsedRankings e.label ∧
        e.positions ≠ [] ∧
        e.voteCount = e.positions.length ∧
        e.averageRank100 = roundHalfEvenNat (100 * e.positions.sum) e.positions.length ∧
        (e.label, e.model) ∈ labelToModel)
    ∧ (Council.calculateAggregateRankings Council.exRankings Council.exLabelToModel).map
        Council.AggEntry.label = ["Response A", "Response B", "Response C"] := by
  have hle : ∀ a b : Council.AggEntry,
      Council.aggLe a b = true ↔ a.averageRank100 ≤ b.averageRank100 := by
    intro a b
    simp [Council.aggLe]
  refine ⟨?_, ?_, ?_, by decide⟩
  · have htot : ∀ a b : Council.AggEntry,
        Council.aggLe a b = true ∨ Council.aggLe b a = true := by
      intro a b
      simp only [Council.aggLe, decide_eq_true_eq]
      omega
    have htrans : ∀ a b c : Council.AggEntry, Council.aggLe a b = true →
        Council.aggLe b c = true → Council.aggLe a c = true := by
      intro a b c
      simp only [Council.aggLe, decide_eq_true_eq]
      omega
    have h := pairwise_stableSort Council.aggLe htot htrans
      (Council.aggregateEntriesInLabelOrder parsedRankings labelToModel)
    exact h.imp (by intro a b hab; simpa [Council.aggLe] using hab)
  · intro k
    exact filter_stableSort_key Council.aggLe Council.AggEntry.averageRank100 hle k
      (Council.aggregateEntriesInLabelOrder parsedRankings labelToModel)
  · intro e he
    simp only [Council.calculateAggregateRankings] at he
    rw [mem_stableSort] at he
    rcases List.mem_filterMap.mp he with ⟨p, hp, hpe⟩
    by_cases hemp : (Council.positionsFor parsedRankings p.1).isEmpty
    · simp [hemp] at hpe
    · rw [if_neg hemp] at hpe
      cases hpe
      refine ⟨rfl, ?_, rfl, rfl, ?_⟩
      · intro hnil
        apply hemp
        have h2 : Council.positionsFor parsedRankings p.1 = [] := by simpa using hnil
        rw [h2]
        rfl
      · exact hp

/-- Witness for C1 amended: the entry of label B in the worked example. -/
theorem calculateAggregateRankings_spec_witness :
    (∃ e : Council.AggEntry,
      e ∈ Council.calculateAggregateRankings Council.exRankings Council.exLabelToModel ∧
      (e.positions = Council.positionsFor Council.exRankings e.label ∧
       e.positions ≠ [] ∧
       e.voteCount = e.positions.length ∧
       e.averageRank100 = roundHalfEvenNat (100 * e.positions.sum) e.positions.length ∧
       (e.label, e.model) ∈ Council.exLabelToModel)) ∧
    (Council.calculateAggregateRankings Council.exRankings Council.exLabelToModel).filter
        (fun e => e.averageRank100 == 150) =
      (Council.aggregateEntriesInLabelOrder Council.exRankings Council.exLabelToModel).filter
        (fun e => e.averageRank100 == 150) :=
  ⟨⟨{ model := "codex", label := "Response B", averageRank100 := 150,
      voteCount := 2, positions := [1, 2] },
    by decide,
    (calculateAggregateRankings_spec Council.exRankings Council.exLabelToModel).2.2.1 _
      (by decide)⟩,
   (calculateAggregateRankings_spec Council.exRankings Council.exLabelToModel).2.1 150⟩

end AgenticOSS

namespace AgenticOSS

/-! ## Relay pipeline: claim C3 -/

/-- C3: the claim states that the first non-completing advance_relay leaves
the stored pipeline status equal to in_progress.  In the source, the UPDATE
of the non-final branch sets current_step, tokens_used and baton_data but
never the status column, while create_relay_pipeline leaves the column at
its schema default pending - so the stored status of a mid-flight pipeline
remains pending (only the returned dict says in_progress). -/
theorem advanceRelay_stored_status (p : Runtime.Pipeline) (steps : List Runtime.StepRow)
    (q l oid toks : Int) (summ : Option String) (now : Nat)
    (pid nm gl : String) (ats : List String) (tb : Int)
    (h : p.current_step + 1 < p.agent_types.length) :
    ((Runtime.advanceRelay p steps q l oid toks summ now).2.1.status = p.status)
    ∧ ((Runtime.advanceRelay p steps q l oid toks summ now).1.status = "in_progress")
    ∧ ((Runtime.advanceRelay p steps q l oid toks summ now).2.1.current_step
        = p.current_step + 1)
    ∧ ((Runtime.advanceRelay p steps q l oid toks summ now).2.1.current_step
        < p.agent_types.length)
    ∧ ((Runtime.createRelayPipeline pid nm gl ats tb).1.status = "pending") := by
  simp only [Runtime.advanceRelay]
  rw [if_neg (by omega)]
  exact ⟨rfl, rfl, rfl, by simpa using h, rfl⟩

/-- Witness for C3 on the two-step pipeline [a, b] advanced once from
creation. -/
theorem advanceRelay_stored_status_witness :
    ((Runtime.advanceRelay (Runtime.createRelayPipeline "p" "n" "g" ["a", "b"] 1000).1
        (Runtime.createRelayPipeline "p" "n" "g" ["a", "b"] 1000).2 1 1 42 100 none 5).2.1.status
      = (Runtime.createRelayPipeline "p" "n" "g" ["a", "b"] 1000).1.status)
    ∧ ((Runtime.advanceRelay (Runtime.createRelayPipeline "p" "n" "g" ["a", "b"] 1000).1
        (Runtime.createRelayPipeline "p" "n" "g" ["a", "b"] 1000).2 1 1 42 100 none 5).1.status
      = "in_progress")
    ∧ ((Runtime.advanceRelay (Runtime.createRelayPipeline "p" "n" "g" ["a", "b"] 1000).1
        (Runtime.createRelayPipeline "p" "n" "g" ["a", "b"] 1000).2 1 1 42 100 none 5).2.1.current_step
      = (Runtime.createRelayPipeline "p" "n" "g" ["a", "b"] 1000).1.current_step + 1)
    ∧ ((Runtime.advanceRelay (Runtime.createRelayPipeline "p" "n" "g" ["a", "b"] 1000).1
        (Runtime.createRelayPipeline "p" "n" "g" ["a", "b"] 1000).2 1 1 42 100 none 5).2.1.current_step
      < (Runtime.createRelayPipeline "p" "n" "g" ["a", "b"] 1000).1.agent_types.length)
    ∧ ((Runtime.createRelayPipeline "p" "n" "g" ["a", "b"] 1000).1.status = "pending") :=
  advanceRelay_stored_status (Runtime.createRelayPipeline "p" "n" "g" ["a", "b"] 1000).1
    (Runtime.createRelayPipeline "p" "n" "g" ["a", "b"] 1000).2 1 1 42 100 none 5
    "p" "n" "g" ["a", "b"] 1000 (by decide)

/-! ## Circuit breaker: claim C7 -/

/-- C7: the claim states that a status query on an open breaker observes
half_open once now - opened_at has reached cooldown_seconds.  The source
status query reads no clock and applies no transition: it reports the
stored state verbatim, so an open breaker is still reported open at any
query time, however large - the open to half_open transition does not
exist in the code (opened_at is never even written). -/
theorem circuitBreakerStatus_no_half_open (store : List Runtime.Breaker) (aid : String)
    (cb : Runtime.Breaker) (now o : Nat)
    (hfind : store.find? (fun b => b.agent_id == aid) = some cb)
    (hstate : cb.state = "open")
    (_hopen : cb.opened_at = some o)
    (_hcool : o + cb.cooldown_seconds ≤ now) :
    (Runtime.circuitBreakerStatus store aid).1.state = "open" ∧
    (Runtime.circuitBreakerStatus store aid).1.state ≠ "half_open" := by
  simp only [Runtime.circuitBreakerStatus, hfind]
  exact ⟨hstate, by rw [hstate]; decide⟩

/-- Witness for C7: the breaker of exBreakerStore opened at time 0 with a
300-second cooldown, queried at time 1000. -/
theorem circuitBreakerStatus_no_half_open_witness :
    (Runtime.circuitBreakerStatus Runtime.exBreakerStore "X").1.state = "open" ∧
    (Runtime.circuitBreakerStatus Runtime.exBreakerStore "X").1.state ≠ "half_open" :=
  circuitBreakerStatus_no_half_open Runtime.exBreakerStore "X"
    { agent_id := "X", state := "open", failure_count := 5,
      last_failure_at := some 0, last_success_at := none, opened_at := some 0,
      failure_threshold := 5, window_seconds := 60, cooldown_seconds := 300,
      fallback_agent := "generalist" }
    1000 0 (by decide) rfl rfl (by decide)

/-! ## Importance scoring: claim C5 -/

/-- C5: the claim describes the importance score as 0.5 plus 0.2 plus 0.1
with tier semantic from 0.8 up.  In binary64 arithmetic - which is what the
source computes with - 0.5 + 0.2 + 0.1 evaluates to the double below 0.8
(0.7999999999999999, mantissa 7205759403792793 at exponent -53), so the
scenario-2 entity (name Bug1, five observations, keyword hits) lands in
tier episodic, not semantic; the semantic branch of the tier assignment is
unreachable from create_entities. -/
theorem importance_float_tier_gap :
    Memory.importanceOf Memory.bugName Memory.bugObs =
      { mant := 7205759403792793, exp := -53 } ∧
    Memory.tierOf (Memory.importanceOf Memory.bugName Memory.bugObs) =
      Memory.Tier.episodic ∧
    Memory.dyLe Memory.fl08 (Memory.importanceOf Memory.bugName Memory.bugObs) = false ∧
    Memory.Tier.episodic ≠ Memory.Tier.semantic ∧
    Memory.dyVal (Memory.importanceOf Memory.bugName Memory.bugObs) < 4 / 5 := by
  refine ⟨by decide, by decide, by decide, by decide, ?_⟩
  have h : Memory.importanceOf Memory.bugName Memory.bugObs =
      { mant := 7205759403792793, exp := -53 } := by decide
  rw [h, Memory.dyVal]
  norm_num

end AgenticOSS

namespace AgenticOSS

/-! ## Task dequeue: claim C6 -/

/-- C6: get_next_task returns a pending task with all dependencies
completed that is maximal for (priority DESC, created_at ASC) among all
such tasks, and the new store marks exactly that task in_progress with
started_at = now; when no pending task qualifies it returns none and
leaves the store unchanged (the none case of the embedding returns the
store itself, which is the same conclusion). -/
theorem getNextTask_spec (store : List Runtime.Task) (now : Nat) :
    (∀ t, (Runtime.getNextTask store now).1 = some t →
      t ∈ store ∧ t.status = Runtime.TaskStatus.pending ∧
      Runtime.depsMet store t = true ∧
      (∀ u ∈ store, u.status = Runtime.TaskStatus.pending →
        Runtime.depsMet store u = true →
        u.priority ≤ t.priority ∧ (u.priority = t.priority → t.created_at ≤ u.created_at)) ∧
      (Runtime.getNextTask store now).2 = store.map (fun r =>
        if r.id == t.id then
          { r with
              status := Runtime.TaskStatus.in_progress,
              started_at := some now }
        else r))
    ∧ ((Runtime.getNextTask store now).1 = none →
      ∀ u ∈ store, u.status = Runtime.TaskStatus.pending →
        Runtime.depsMet store u = false) := by
  have htot : ∀ a b : Runtime.Task,
      Runtime.taskLe a b = true ∨ Runtime.taskLe b a = true := by
    intro a b
    simp only [Runtime.taskLe, Bool.or_eq_true, Bool.and_eq_true,
      decide_eq_true_eq, beq_iff_eq]
    omega
  have htrans : ∀ a b c : Runtime.Task, Runtime.taskLe a b = true →
      Runtime.taskLe b c = true → Runtime.taskLe a c = true := by
    intro a b c
    simp only [Runtime.taskLe, Bool.or_eq_true, Bool.and_eq_true,
      decide_eq_true_eq, beq_iff_eq]
    omega
  have hpair := pairwise_stableSort Runtime.taskLe htot htrans
    (store.filter (fun t => t.status == Runtime.TaskStatus.pending))
  have hfst : (Runtime.getNextTask store now).1 =
      (stableSort Runtime.taskLe
        (store.filter (fun t => t.status == Runtime.TaskStatus.pending))).find?
          (fun t => Runtime.depsMet store t) := by
    simp only [Runtime.getNextTask]
    cases hf : (stableSort Runtime.taskLe
        (store.filter (fun t => t.status == Runtime.TaskStatus.pending))).find?
          (fun t => Runtime.depsMet store t) <;> simp
  constructor
  · intro t ht
    have hfind : (stableSort Runtime.taskLe
        (store.filter (fun t => t.status == Runtime.TaskStatus.pending))).find?
          (fun t => Runtime.depsMet store t) = some t := by
      rw [hfst] at ht
      exact ht
    have tmem : t ∈ store.filter (fun t => t.status == Runtime.TaskStatus.pending) := by
      rw [← mem_stableSort Runtime.taskLe]
      exact List.mem_of_find?_eq_some hfind
    rcases List.mem_filter.mp tmem with ⟨tstore, tpend⟩
    refine ⟨tstore, by simpa using tpend, List.find?_some hfind, ?_, ?_⟩
    · intro u hu hupend hudeps
      have humem : u ∈ stableSort Runtime.taskLe
          (store.filter (fun t => t.status == Runtime.TaskStatus.pending)) := by
        rw [mem_stableSort]
        exact List.mem_filter.mpr ⟨hu, by simpa using hupend⟩
      have hle := find?_min_of_pairwise Runtime.taskLe htot
        (fun t => Runtime.depsMet store t) _ t hpair hfind u humem hudeps
      simp only [Runtime.taskLe, Bool.or_eq_true, Bool.and_eq_true,
        decide_eq_true_eq, beq_iff_eq] at hle
      omega
    · simp only [Runtime.getNextTask]
      rw [hfind]
  · intro hnone u hu hupend
    have hfind : (stableSort Runtime.taskLe
        (store.filter (fun t => t.status == Runtime.TaskStatus.pending))).find?
          (fun t => Runtime.depsMet store t) = none := by
      rw [hfst] at hnone
      exact hnone
    have humem : u ∈ stableSort Runtime.taskLe
        (store.filter (fun t => t.status == Runtime.TaskStatus.pending)) := by
      rw [mem_stableSort]
      exact List.mem_filter.mpr ⟨hu, by simpa using hupend⟩
    have hnp := List.find?_eq_none.mp hfind u humem
    simpa using hnp

/-- Witness for C6: on exTaskStore, task 2 has the higher priority but an
incomplete dependency, so task 1 is dequeued. -/
theorem getNextTask_spec_witness :
    ∃ t, (Runtime.getNextTask Runtime.exTaskStore 5).1 = some t ∧
      (t ∈ Runtime.exTaskStore ∧ t.status = Runtime.TaskStatus.pending ∧
       Runtime.depsMet Runtime.exTaskStore t = true ∧
       (∀ u ∈ Runtime.exTaskStore, u.status = Runtime.TaskStatus.pending →
         Runtime.depsMet Runtime.exTaskStore u = true →
         u.priority ≤ t.priority ∧ (u.priority = t.priority → t.created_at ≤ u.created_at)) ∧
       (Runtime.getNextTask Runtime.exTaskStore 5).2 = Runtime.exTaskStore.map (fun r =>
         if r.id == t.id then
           { r with
               status := Runtime.TaskStatus.in_progress,
               started_at := some 5 }
         else r)) :=
  ⟨{ id := 1, goal_id := none, title := "T1", status := Runtime.TaskStatus.pending,
     priority := 9, dependencies := [], created_at := 0,
     started_at := none, completed_at := none },
   by decide,
   (getNextTask_spec Runtime.exTaskStore 5).1 _ (by decide)⟩

end AgenticOSS

namespace AgenticOSS

/-! ## Working memory: claim C8 -/

theorem wmLe_total (a b : Memory.WMItem) :
    Memory.wmLe a b = true ∨ Memory.wmLe b a = true := by
  simp only [Memory.wmLe, Bool.or_eq_true, Bool.and_eq_true,
    decide_eq_true_eq, beq_iff_eq]
  omega

theorem wmLe_trans (a b c : Memory.WMItem) : Memory.wmLe a b = true →
    Memory.wmLe b c = true → Memory.wmLe a c = true := by
  simp only [Memory.wmLe, Bool.or_eq_true, Bool.and_eq_true,
    decide_eq_true_eq, beq_iff_eq]
  omega

/-- The selected page, with the bumped access count, keeps the
(priority DESC, created_at DESC) order of the ORDER BY. -/
theorem wm_page_pairwise (base : List Memory.WMItem) (limit : Nat) :
    (((stableSort Memory.wmLe base).take limit).map
        (fun r => { r with access_count := r.access_count + 1 })).Pairwise
      (fun a b => b.priority < a.priority ∨
        (a.priority = b.priority ∧ b.created_at ≤ a.created_at)) := by
  have hp := pairwise_stableSort Memory.wmLe wmLe_total wmLe_trans base
  have ht : ((stableSort Memory.wmLe base).take limit).Pairwise
      (fun a b => Memory.wmLe a b = true) :=
    hp.sublist (List.take_sublist limit _)
  rw [List.pairwise_map]
  refine ht.imp ?_
  intro a b hab
  simpa only [Memory.wmLe, Bool.or_eq_true, Bool.and_eq_true,
    decide_eq_true_eq, beq_iff_eq] using hab

/-- Every row of the selected page comes from base. -/
theorem wm_page_mem (base : List Memory.WMItem) (limit : Nat) (r : Memory.WMItem)
    (hr : r ∈ ((stableSort Memory.wmLe base).take limit).map
        (fun r => { r with access_count := r.access_count + 1 })) :
    ∃ s ∈ base, r = { s with access_count := s.access_count + 1 } := by
  rcases List.mem_map.mp hr with ⟨s, hs, rfl⟩
  exact ⟨s, (mem_stableSort Memory.wmLe base s).mp (List.mem_of_mem_take hs), rfl⟩

/-- C8: every row returned by get_working_memory survived the synchronous
delete of expired rows, so its expires_at is at least now; the returned
page is ordered by priority descending then created_at descending; and
each returned row is a stored row with its access_count incremented by
one. -/
theorem getWorkingMemory_spec (store : List Memory.WMItem) (now : Nat)
    (context_key : Option String) (limit : Nat) :
    (∀ r ∈ (Memory.getWorkingMemory store now context_key limit).1,
      now ≤ r.expires_at ∧
      ∃ row ∈ store, row.id = r.id ∧ r.access_count = row.access_count + 1 ∧
        row.expires_at = r.expires_at ∧ row.priority = r.priority ∧
        row.created_at = r.created_at ∧ row.context_key = r.context_key ∧
        row.content = r.content)
    ∧ (Memory.getWorkingMemory store now context_key limit).1.Pairwise
        (fun a b => b.priority < a.priority ∨
          (a.priority = b.priority ∧ b.created_at ≤ a.created_at)) := by
  have hbase : ∀ base : List Memory.WMItem,
      (∀ s ∈ base, s ∈ store.filter (fun r => !decide (r.expires_at < now))) →
      (∀ r ∈ ((stableSort Memory.wmLe base).take limit).map
          (fun r => { r with access_count := r.access_count + 1 }),
        now ≤ r.expires_at ∧
        ∃ row ∈ store, row.id = r.id ∧ r.access_count = row.access_count + 1 ∧
          row.expires_at = r.expires_at ∧ row.priority = r.priority ∧
          row.created_at = r.created_at ∧ row.context_key = r.context_key ∧
          row.content = r.content) := by
    intro base hsub r hr
    rcases wm_page_mem base limit r hr with ⟨s, hsbase, rfl⟩
    rcases List.mem_filter.mp (hsub s hsbase) with ⟨hstore, hexp⟩
    constructor
    · show now ≤ s.expires_at
      have : ¬(s.expires_at < now) := by simpa using hexp
      omega
    · exact ⟨s, hstore, rfl, rfl, rfl, rfl, rfl, rfl, rfl⟩
  rcases context_key with _ | k
  · exact ⟨hbase _ (fun s hs => hs), wm_page_pairwise _ limit⟩
  · by_cases hk : k = ""
    · simp only [Memory.getWorkingMemory, hk, if_pos]
      exact ⟨hbase _ (fun s hs => hs), wm_page_pairwise _ limit⟩
    · simp only [Memory.getWorkingMemory, if_neg hk]
      exact ⟨hbase _ (fun s hs => (List.mem_filter.mp hs).1), wm_page_pairwise _ limit⟩

/-- Witness for C8 on exWMStore at time 50: the expired row 3 is gone and
row 1 (higher priority) leads the page. -/
theorem getWorkingMemory_spec_witness :
    ∃ r, r ∈ (Memory.getWorkingMemory Memory.exWMStore 50 none 10).1 ∧
      (50 ≤ r.expires_at ∧
       ∃ row ∈ Memory.exWMStore, row.id = r.id ∧
         r.access_count = row.access_count + 1 ∧
         row.expires_at = r.expires_at ∧ row.priority = r.priority ∧
         row.created_at = r.created_at ∧ row.context_key = r.context_key ∧
         row.content = r.content) :=
  ⟨{ id := 1, context_key := "c", content := "old high", priority := 9,
     ttl_minutes := 60, created_at := 0, expires_at := 100, access_count := 4,
     entity_id := none },
   by decide,
   (getWorkingMemory_spec Memory.exWMStore 50 none 10).1 _ (by decide)⟩

end AgenticOSS

namespace AgenticOSS

/-! ## Version diff: claim C4 -/

/-- The snapshot scan of memory_diff finds a snapshot whenever the wanted
version number occurs in the list (the Python loop overwrites, so the last
match wins; existence is all the diff needs). -/
theorem diff_scan_isSome (n : Nat) (l : List Memory.VersionRow) :
    ∀ acc : Option Memory.Snapshot,
      ((∃ vr ∈ l, vr.version_number = n) ∨ acc.isSome = true) →
      (l.foldl (fun acc v => if v.version_number = n then some v.snapshot else acc)
        acc).isSome = true := by
  induction l with
  | nil =>
    intro acc h
    rcases h with ⟨vr, hvr, _⟩ | h
    · simp at hvr
    · simpa using h
  | cons v vs ih =>
    intro acc h
    simp only [List.foldl_cons]
    by_cases hv : v.version_number = n
    · exact ih _ (Or.inr (by simp [hv]))
    · refine ih _ ?_
      rcases h with ⟨vr, hvr, hn⟩ | h
      · rcases List.mem_cons.mp hvr with rfl | hvr2
        · exact absurd hn hv
        · exact Or.inl ⟨vr, hvr2, hn⟩
      · exact Or.inr (by simpa [hv] using h)

/-- Filtering a list by non-membership in itself leaves nothing: the
added/removed comprehensions of memory_diff on two equal snapshots are
empty. -/
theorem filter_not_contains_self (l : List (List Char)) :
    l.filter (fun o => !(l.contains o)) = [] := by
  rw [List.filter_eq_nil_iff]
  intro a ha
  simp [ha]

/-- C4 counterexample: the claim promises that diff(e, v, v) reports empty
added and removed lists rather than an error for every existing version v.
For an entity with a single stored version - the state of every entity
right after creation - the source returns the error
"Not enough versions for diff" even for v = 1, which exists. -/
theorem memoryDiff_single_version_errors :
    Memory.memoryDiff Memory.exDiffStore1 ("E".toList) (some 1) (some 1) =
      Memory.DiffResult.error ("Not enough versions for diff".toList) ∧
    Memory.memoryDiff Memory.exDiffStore1 ("E".toList) (some 1) (some 1) ≠
      Memory.DiffResult.ok ("E".toList) 1 1
        { name := "E".toList, etype := "t".toList, observations := ["x".toList] }
        { name := "E".toList, etype := "t".toList, observations := ["x".toList] }
        [] [] :=
  ⟨by decide, by decide⟩

/-- C4 amended: for an entity with at least two stored versions and any
version number v that exists for it, memory_diff(e, v, v) returns the ok
result with equal snapshots and empty added and removed lists; entities
with fewer than two versions get the not-enough-versions error instead. -/
theorem memoryDiff_same_version (st : Memory.MemStore) (name : List Char)
    (ent : Memory.MemEntity)
    (hfind : st.entities.find? (fun e => e.name == name) = some ent)
    (hlen : 2 ≤ ent.versions.length) (v : Nat)
    (hv : ∃ vr ∈ ent.versions, vr.version_number = v) :
    ∃ s : Memory.Snapshot,
      Memory.memoryDiff st name (some v) (some v) =
        Memory.DiffResult.ok ent.name v v s s [] [] := by
  simp only [Memory.memoryDiff, hfind]
  have hlen2 : 2 ≤ (stableSort (fun a b => b.version_number ≤ a.version_number)
      ent.versions).length := by
    rw [length_stableSort]
    exact hlen
  have hv2 : ∃ vr ∈ stableSort (fun a b => b.version_number ≤ a.version_number)
      ent.versions, vr.version_number = v := by
    rcases hv with ⟨vr, hvr, hn⟩
    exact ⟨vr, (mem_stableSort _ _ vr).mpr hvr, hn⟩
  cases hs : stableSort (fun a b => b.version_number ≤ a.version_number) ent.versions with
  | nil => rw [hs] at hlen2; simp at hlen2
  | cons v0 tl =>
    cases htl : tl with
    | nil => rw [hs, htl] at hlen2; simp at hlen2
    | cons v1row rest =>
      rw [hs, htl] at hv2
      have hsome := diff_scan_isSome v (v0 :: v1row :: rest) none (Or.inl hv2)
      rcases Option.isSome_iff_exists.mp hsome with ⟨s, hscan⟩
      refine ⟨s, ?_⟩
      simp only [Option.getD_some, hscan]
      rw [filter_not_contains_self]

/-- Witness for C4 amended: diff(E, 1, 1) on the two-version entity of
exDiffStore2. -/
theorem memoryDiff_same_version_witness :
    ∃ s : Memory.Snapshot,
      Memory.memoryDiff Memory.exDiffStore2 ("E".toList) (some 1) (some 1) =
        Memory.DiffResult.ok ("E".toList) 1 1 s s [] [] :=
  memoryDiff_same_version Memory.exDiffStore2 ("E".toList)
    { id := 1, name := "E".toList, entity_type := "t".toList,
      tier := Memory.Tier.working, importance := Memory.fl05,
      observations := ["x".toList, "y".toList],
      versions := [
        { version_number := 1,
          snapshot := { name := "E".toList, etype := "t".toList,
                        observations := ["x".toList] },
          commit_message := "Initial creation" },
        { version_number := 2,
          snapshot := { name := "E".toList, etype := "t".toList,
                        observations := ["x".toList, "y".toList] },
          commit_message := "Added y" }] }
    (by decide) (by decide) 1
    ⟨{ version_number := 1,
       snapshot := { name := "E".toList, etype := "t".toList,
                     observations := ["x".toList] },
       commit_message := "Initial creation" }, by decide, by decide⟩

end AgenticOSS

namespace AgenticOSS

/-! ## Batch entity creation: claim C9 -/

/-- The batch loop of create_entities threads an accumulator: running it
from any partial result is running it from the empty result and
concatenating. -/
theorem createEntities_go (l : List Memory.EntityInput) :
    ∀ (res : Memory.CreateResult) (st : Memory.MemStore),
      l.foldl Memory.createOne (res, st) =
        ({ entities := res.entities ++ (Memory.createEntities l st).1.entities,
           error_messages :=
             res.error_messages ++ (Memory.createEntities l st).1.error_messages },
         (Memory.createEntities l st).2) := by
  induction l with
  | nil =>
    intro res st
    simp [Memory.createEntities]
  | cons x xs ih =>
    intro res st
    rw [List.foldl_cons]
    have hcons : Memory.createEntities (x :: xs) st =
        xs.foldl Memory.createOne
          (Memory.createOne ({ entities := [], error_messages := [] }, st) x) := by
      rw [Memory.createEntities, List.foldl_cons]
    by_cases h : Memory.nameTaken st x.name
    · have h1 : ∀ r : Memory.CreateResult, Memory.createOne (r, st) x =
          ({ r with error_messages := r.error_messages ++ [Memory.dupMsg x.name] }, st) := by
        intro r
        simp [Memory.createOne, h]
      rw [h1, ih, hcons, h1, ih]
      simp
    · have h1 : ∀ r : Memory.CreateResult, Memory.createOne (r, st) x =
          ({ r with entities := r.entities ++
              [{ id := st.nextId, name := x.name,
                 tier := Memory.tierOf (Memory.importanceOf x.name x.observations),
                 importance := Memory.importanceOf x.name x.observations }] },
           { nextId := st.nextId + 1,
             entities := st.entities ++
               [{ id := st.nextId, name := x.name, entity_type := x.entityType,
                  tier := Memory.tierOf (Memory.importanceOf x.name x.observations),
                  importance := Memory.importanceOf x.name x.observations,
                  observations := x.observations,
                  versions := [{ version_number := 1,
                                 snapshot := { name := x.name, etype := x.entityType,
                                               observations := x.observations },
                                 commit_message := "Initial creation" }] }] }) := by
        intro r
        simp [Memory.createOne, h]
      rw [h1, ih, hcons, h1, ih]
      simp

/-- Splitting the batch at any point composes. -/
theorem createEntities_append (l1 l2 : List Memory.EntityInput) (st : Memory.MemStore) :
    Memory.createEntities (l1 ++ l2) st =
      ({ entities := (Memory.createEntities l1 st).1.entities ++
           (Memory.createEntities l2 (Memory.createEntities l1 st).2).1.entities,
         error_messages := (Memory.createEntities l1 st).1.error_messages ++
           (Memory.createEntities l2 (Memory.createEntities l1 st).2).1.error_messages },
       (Memory.createEntities l2 (Memory.createEntities l1 st).2).2) := by
  rw [Memory.createEntities, List.foldl_append]
  have h1 : l1.foldl Memory.createOne ({ entities := [], error_messages := [] }, st) =
      Memory.createEntities l1 st := rfl
  rw [h1]
  have h2 : Memory.createEntities l1 st =
      ((Memory.createEntities l1 st).1, (Memory.createEntities l1 st).2) := rfl
  rw [h2, createEntities_go]

/-- C9: a batch item whose name is already taken when its turn comes - by a
pre-existing entity or by an earlier item of the same batch - contributes
exactly its duplicate-name error message and no store change, while the
items after it are processed exactly as if it were absent; the returned
object carries the created records and the error messages as two parallel
lists. -/
theorem createEntities_duplicate_partial (st : Memory.MemStore)
    (pre post : List Memory.EntityInput) (x : Memory.EntityInput)
    (h : Memory.nameTaken (Memory.createEntities pre st).2 x.name = true) :
    (Memory.createEntities (pre ++ x :: post) st).1.entities =
      (Memory.createEntities pre st).1.entities ++
      (Memory.createEntities post (Memory.createEntities pre st).2).1.entities
    ∧ (Memory.createEntities (pre ++ x :: post) st).1.error_messages =
      (Memory.createEntities pre st).1.error_messages ++
      Memory.dupMsg x.name ::
        (Memory.createEntities post (Memory.createEntities pre st).2).1.error_messages
    ∧ (Memory.createEntities (pre ++ x :: post) st).2 =
      (Memory.createEntities post (Memory.createEntities pre st).2).2 := by
  have hx : Memory.createEntities (x :: post) (Memory.createEntities pre st).2 =
      ({ entities := (Memory.createEntities post (Memory.createEntities pre st).2).1.entities,
         error_messages := Memory.dupMsg x.name ::
           (Memory.createEntities post (Memory.createEntities pre st).2).1.error_messages },
       (Memory.createEntities post (Memory.createEntities pre st).2).2) := by
    rw [Memory.createEntities, List.foldl_cons]
    have h1 : Memory.createOne ({ entities := [], error_messages := [] },
        (Memory.createEntities pre st).2) x =
        ({ entities := [], error_messages := [Memory.dupMsg x.name] },
         (Memory.createEntities pre st).2) := by
      simp [Memory.createOne, h]
    rw [h1, createEntities_go]
    simp
  rw [createEntities_append pre (x :: post) st, hx]
  exact ⟨rfl, rfl, rfl⟩

/-- Witness for C9: the batch [A, A, B] on the empty store - the second A
fails, A and B are created. -/
theorem createEntities_duplicate_partial_witness :
    (Memory.createEntities ([Memory.exInputA] ++ Memory.exInputA :: [Memory.exInputB])
        Memory.exEmptyStore).1.entities =
      (Memory.createEntities [Memory.exInputA] Memory.exEmptyStore).1.entities ++
      (Memory.createEntities [Memory.exInputB]
        (Memory.createEntities [Memory.exInputA] Memory.exEmptyStore).2).1.entities
    ∧ (Memory.createEntities ([Memory.exInputA] ++ Memory.exInputA :: [Memory.exInputB])
        Memory.exEmptyStore).1.error_messages =
      (Memory.createEntities [Memory.exInputA] Memory.exEmptyStore).1.error_messages ++
      Memory.dupMsg Memory.exInputA.name ::
        (Memory.createEntities [Memory.exInputB]
          (Memory.createEntities [Memory.exInputA] Memory.exEmptyStore).2).1.error_messages
    ∧ (Memory.createEntities ([Memory.exInputA] ++ Memory.exInputA :: [Memory.exInputB])
        Memory.exEmptyStore).2 =
      (Memory.createEntities [Memory.exInputB]
        (Memory.createEntities [Memory.exInputA] Memory.exEmptyStore).2).2 :=
  createEntities_duplicate_partial Memory.exEmptyStore [Memory.exInputA] [Memory.exInputB]
    Memory.exInputA (by decide)

end AgenticOSS

namespace AgenticOSS

/-! ## Skill execution recording: claim C10 -/

/-- C10: recording an execution of an existing skill (located as the first
row with that skill_name, unique by schema) increments execution_count by
exactly one and rebuilds success_rate as
(int(old_rate * old_count) + 1 on success) / (old_count + 1), which stays
inside [0, 1] whenever the stored rate was; recording against a missing
skill name returns only the not-found message and leaves the store
untouched. -/
theorem recordSkillExecution_spec (store : List Memory.Skill) (name : String)
    (success : Bool) (t : ℚ) :
    ((store.find? (fun s => s.skill_name == name) = none →
      Memory.recordSkillExecution store name success t =
        (Memory.skillNotFoundMsg name, store)))
    ∧ (∀ row, store.find? (fun s => s.skill_name == name) = some row →
        0 ≤ row.success_rate → row.success_rate ≤ 1 →
        ∃ row', ((Memory.recordSkillExecution store name success t).2.find?
            (fun s => s.skill_name == name) = some row') ∧
          row'.execution_count = row.execution_count + 1 ∧
          row'.success_rate =
            ((Memory.pyInt (row.success_rate * row.execution_count) +
              (if success then 1 else 0) : Int) : ℚ) /
              ((row.execution_count + 1 : Nat) : ℚ) ∧
          0 ≤ row'.success_rate ∧ row'.success_rate ≤ 1) := by
  constructor
  · intro hnone
    simp only [Memory.recordSkillExecution, hnone]
  · intro row hrow hr0 hr1
    have hmul0 : (0 : ℚ) ≤ row.success_rate * (row.execution_count : ℚ) :=
      mul_nonneg hr0 (Nat.cast_nonneg _)
    have hpy : Memory.pyInt (row.success_rate * row.execution_count) =
        ⌊row.success_rate * (row.execution_count : ℚ)⌋ := by
      simp [Memory.pyInt, hmul0]
    have hsc0 : (0 : Int) ≤ Memory.pyInt (row.success_rate * row.execution_count) := by
      rw [hpy]
      exact Int.floor_nonneg.mpr hmul0
    have hscle : Memory.pyInt (row.success_rate * row.execution_count) ≤
        (row.execution_count : Int) := by
      rw [hpy]
      have hle : row.success_rate * (row.execution_count : ℚ) ≤ (row.execution_count : ℚ) :=
        mul_le_of_le_one_left (Nat.cast_nonneg _) hr1
      calc ⌊row.success_rate * (row.execution_count : ℚ)⌋
          ≤ ⌊((row.execution_count : Nat) : ℚ)⌋ := Int.floor_le_floor hle
        _ = (row.execution_count : Int) := Int.floor_natCast _
    set sc : Int := Memory.pyInt (row.success_rate * row.execution_count) +
      (if success then 1 else 0) with hsc
    have hscbounds : (0 : Int) ≤ sc ∧ sc ≤ (row.execution_count : Int) + 1 := by
      rcases success with _ | _ <;> simp [hsc] <;> omega
    have hrate0 : (0 : ℚ) ≤ (sc : ℚ) / ((row.execution_count + 1 : Nat) : ℚ) := by
      apply div_nonneg
      · exact_mod_cast hscbounds.1
      · positivity
    have hrate1 : (sc : ℚ) / ((row.execution_count + 1 : Nat) : ℚ) ≤ 1 := by
      rw [div_le_one (by positivity)]
      have := hscbounds.2
      push_cast
      exact_mod_cast this
    refine ⟨{ row with
        execution_count := row.execution_count + 1,
        success_rate := (sc : ℚ) / ((row.execution_count + 1 : Nat) : ℚ),
        avg_execution_time_ms := some (match row.avg_execution_time_ms with
          | some t0 => if t0 = 0 then t
                       else (t0 * row.execution_count + t) / (row.execution_count + 1 : Nat)
          | none => t) }, ?_, rfl, rfl, hrate0, hrate1⟩
    simp only [Memory.recordSkillExecution, hrow]
    have hpres : ∀ s : Memory.Skill, (s.skill_name == name) = true →
        (((fun s : Memory.Skill =>
          { s with
              execution_count := row.execution_count + 1,
              success_rate := (sc : ℚ) / ((row.execution_count + 1 : Nat) : ℚ),
              avg_execution_time_ms := some (match row.avg_execution_time_ms with
                | some t0 => if t0 = 0 then t
                             else (t0 * row.execution_count + t) / (row.execution_count + 1 : Nat)
                | none => t) }) s).skill_name == name) = true := by
      intro s hs
      exact hs
    rw [find?_map_update _ _ hpres, hrow]
    rfl

/-- Witness for C10 on exSkillStore: the deploy skill at rate 1 over three
executions, recording one more success. -/
theorem recordSkillExecution_spec_witness :
    ∃ row', ((Memory.recordSkillExecution Memory.exSkillStore "deploy" true 7).2.find?
        (fun s => s.skill_name == "deploy") = some row') ∧
      row'.execution_count = 3 + 1 ∧
      row'.success_rate =
        ((Memory.pyInt ((1 : ℚ) * ((3 : Nat) : ℚ)) + (1 : Int) : Int) : ℚ) /
          (((3 : Nat) + 1 : Nat) : ℚ) ∧
      0 ≤ row'.success_rate ∧ row'.success_rate ≤ 1 := by
  have h := (recordSkillExecution_spec Memory.exSkillStore "deploy" true 7).2
    { id := 1, skill_name := "deploy", skill_category := "ops",
      execution_count := 3, success_rate := 1,
      avg_execution_time_ms := none }
    rfl zero_le_one (le_refl 1)
  exact h

end AgenticOSS
